import Mathlib

/-!
Verification of the tool map manager (session-scoped tool registry).

Shallow embedding of `src/tool_map_manager.py` (class `ToolMapManager`) and
`src/tool_map_infrastructure/tool_entry_dto.py` (`ToolEntryDTO`, `ToolStatusENUM`).

Modelling conventions:
- Python dicts with string keys are insertion-ordered association lists
  (`List (String × Val)`); `assocSet` replaces in place or appends, matching
  `d[k] = v`, and `lookupA` matches `d.get(k)`.
- Python scalar values are the inductive `Val`; float arithmetic on scores and
  durations is modelled with `ℚ` (the claims only involve the exact constants
  0, 0.1, 0.2, 0.3, 0.4, 1 and exact division `total / count`).
- Wall-clock instants (`datetime.now()`, `time.time()`) are parameters: a `now`
  tick (`Nat`) for timestamps and an `elapsed` duration (`ℚ`) per execution.
- A tool instance (an external collaborator behind `ToolInterface`) is a record
  of its optional initializer's outcome and its `execute` behaviour.  Python
  tools receive the live context dict and may mutate it in place, so `execute`
  returns the post-call context together with the result (or the exception
  message: raising is modelled as `ExecOutcome.raised`).
- `asyncio` background-initialization tasks are handles in a side table
  (id ↦ cancelled flag); awaiting them is modelled by an explicit outcome
  parameter (`WaitOutcome`) standing for completion / timeout / failure of the
  awaited work.  `asyncio.wait_for` cancels the awaited task when its timeout
  fires (and, through a cancelled `gather`, every pending child), and a
  cancelled task's `finally` block deletes its own handle; since that deletion
  destroys the handle's cancelled flag, the state keeps a durable record
  (`cancelledInits`) of every id whose initialization task was cancelled.
-/

/-- A Python value, as far as this code inspects values. -/
inductive Val where
  | vNone : Val
  | vBool : Bool → Val
  | vInt : Int → Val
  | vRat : ℚ → Val
  | vStr : String → Val
  | vDict : List (String × Val) → Val

/-- A Python dict with string keys (insertion-ordered association list). -/
abbrev Dict := List (String × Val)

/-- `m.get(k)`: the binding of `k`, if any. -/
def lookupA {α : Type} : List (String × α) → String → Option α
  | [], _ => none
  | (k', v) :: rest, k => if k' = k then some v else lookupA rest k

/-- `m[k] = v`: replace the binding in place if present, else append. -/
def assocSet {α : Type} (m : List (String × α)) (k : String) (v : α) :
    List (String × α) :=
  match m with
  | [] => [(k, v)]
  | (k', v') :: rest =>
      if k' = k then (k, v) :: rest else (k', v') :: assocSet rest k v

/-- Python truthiness of a `Val` (`if x:`). -/
def Val.truthy : Val → Bool
  | .vNone => false
  | .vBool b => b
  | .vInt n => n != 0
  | .vRat q => q != 0
  | .vStr s => s != ""
  | .vDict d => !d.isEmpty

/-- `str(v)` for values (Python `repr`-style; quoting uses `'`). -/
def pyStrV : Val → String
  | .vNone => "None"
  | .vBool true => "True"
  | .vBool false => "False"
  | .vInt n => toString n
  | .vRat q => toString q
  | .vStr s => "\x27" ++ s ++ "\x27"
  | .vDict d => "\x7b" ++ pyStrFields d ++ "\x7d"
where
  /-- comma-separated `'key': value` fields of a dict literal. -/
  pyStrFields : List (String × Val) → String
  | [] => ""
  | [(k, v)] => "\x27" ++ k ++ "\x27: " ++ pyStrV v
  | (k, v) :: rest => "\x27" ++ k ++ "\x27: " ++ pyStrV v ++ ", " ++ pyStrFields rest

/-- `str(result).replace('\n', ' ')[:200]` -/
def pyTruncate (s : String) : String :=
  String.mk ((s.data.map (fun c => if c = '\n' then ' ' else c)).take 200)

/-- `needle in hay` on character lists (Python substring test; `[]` always found). -/
def containsSub (needle : List Char) : List Char → Bool
  | [] => needle.isEmpty
  | c :: rest => needle.isPrefixOf (c :: rest) || containsSub needle rest

/-- Python `a in b` for strings. -/
def strIn (needle hay : String) : Bool :=
  containsSub needle.toList hay.toList

/-- `s.lower()` (ASCII case fold, which covers the claims). -/
def pyLower (s : String) : String := String.mk (s.data.map Char.toLower)

/-- Python `str.split()` whitespace class. -/
def pyIsSpace (c : Char) : Bool :=
  c = ' ' || c = '\t' || c = '\n' || c = '\r' || c = '\x0b' || c = '\x0c'

/-- Splitter for Python `s.split()`: whitespace runs separate words, leading
and trailing whitespace produce no empty words.  `acc` holds the characters of
the current word, reversed. -/
def pySplitChars : List Char → List Char → List String
  | [], acc => if acc.isEmpty then [] else [String.mk acc.reverse]
  | c :: rest, acc =>
    if pyIsSpace c then
      (if acc.isEmpty then [] else [String.mk acc.reverse]) ++ pySplitChars rest []
    else pySplitChars rest (c :: acc)

/-- Python `s.split()` (no separator argument). -/
def pySplitWS (s : String) : List String := pySplitChars s.data []

/-- Python `lst[-n:]` for `n : Nat`.  `lst[-0:]` is `lst[0:]`, the whole list —
the `-0` quirk matters for the history cap (claim C7). -/
def pySliceLast {α : Type} (n : Nat) (l : List α) : List α :=
  if n = 0 then l else l.drop (l.length - n)

/-- `ToolStatusENUM` from `tool_entry_dto.py`. -/
inductive ToolStatusENUM where
  | uninitialized
  | ready
  | executing
  | error
  | disabled
deriving DecidableEq, Repr

/-- `.value` strings of the enum. -/
def ToolStatusENUM.value : ToolStatusENUM → String
  | .uninitialized => "uninitialized"
  | .ready => "ready"
  | .executing => "executing"
  | .error => "error"
  | .disabled => "disabled"

/-- Outcome of a tool's `execute(context)` call: normal return with the
post-call context (tools may mutate the dict they are handed) and the result
dict, or an exception carrying `str(e)`. -/
inductive ExecOutcome where
  | ok : Dict → Dict → ExecOutcome
  | raised : Dict → String → ExecOutcome

/-- An external tool instance (the object behind `ToolInterface`): whether it
has an `initialize` attribute, what that initializer does when awaited
(`Except.error msg` models raising), and its `execute` behaviour. -/
structure ToolInstance where
  hasInit : Bool
  initRet : Except String Bool
  execute : Dict → ExecOutcome

/-- `ToolEntryDTO`. -/
structure ToolEntry where
  tool_id : String
  tool_instance : ToolInstance
  name : String := ""
  description : String := ""
  category : String := "tool"
  handler_name : String := ""
  llm_config : Dict := []
  system_prompt : String := ""
  capabilities : List String := []
  keywords : List String := []
  status : ToolStatusENUM := .uninitialized
  initialized_at : Option Nat := none
  last_executed : Option Nat := none
  execution_count : Nat := 0
  total_execution_time : ℚ := 0
  average_execution_time : ℚ := 0
  execution_history : List Dict := []
  max_history_size : Nat := 50
  error_count : Nat := 0
  last_error : Option String := none
  last_error_time : Option Nat := none
  metadata : Dict := []

/-- `ToolEntryDTO.update_execution_stats(execution_time)`. -/
def ToolEntry.updateExecutionStats (e : ToolEntry) (now : Nat) (t : ℚ) : ToolEntry :=
  { e with
    last_executed := some now
    execution_count := e.execution_count + 1
    total_execution_time := e.total_execution_time + t
    average_execution_time :=
      (e.total_execution_time + t) / ((e.execution_count + 1 : Nat) : ℚ) }

/-- Stamp `entry["timestamp"]` if absent (first step of `add_to_execution_history`). -/
def stampRec (now : Nat) (rec : Dict) : Dict :=
  if (lookupA rec "timestamp").isSome then rec
  else assocSet rec "timestamp" (Val.vInt now)

/-- `ToolEntryDTO.add_to_execution_history(entry)`: stamp, append, trim with
`history[-max_history_size:]` when the length exceeds the cap. -/
def ToolEntry.addToExecutionHistory (e : ToolEntry) (now : Nat) (rec : Dict) : ToolEntry :=
  let h := e.execution_history ++ [stampRec now rec]
  { e with execution_history :=
      if h.length > e.max_history_size then pySliceLast e.max_history_size h else h }

/-- `ToolEntryDTO.record_error(error)`. -/
def ToolEntry.recordError (e : ToolEntry) (now : Nat) (msg : String) : ToolEntry :=
  let e1 := { e with
    error_count := e.error_count + 1
    last_error := some msg
    last_error_time := some now
    status := ToolStatusENUM.error }
  e1.addToExecutionHistory now
    [("error", Val.vStr msg), ("success", Val.vBool false), ("timestamp", Val.vInt now)]

/-- `ToolEntryDTO.is_ready()`. -/
def ToolEntry.isReady (e : ToolEntry) : Bool := e.status = .ready

/-- `ToolEntryDTO.is_available()`. -/
def ToolEntry.isAvailable (e : ToolEntry) : Bool :=
  e.status = .ready || e.status = .uninitialized

/-- `ToolEntryDTO.matches_query(query)`: 0.4 per matching keyword, 0.3 per
matching capability, 0.2 for the name, 0.1 for any description word, capped at 1. -/
def ToolEntry.matchesQuery (e : ToolEntry) (query : String) : ℚ :=
  let ql := pyLower query
  let kw : ℚ := ((e.keywords.filter (fun k => strIn (pyLower k) ql)).length : ℚ) * (2/5)
  let cap : ℚ := ((e.capabilities.filter (fun c => strIn (pyLower c) ql)).length : ℚ) * (3/10)
  let nm : ℚ := if strIn (pyLower e.name) ql then 1/5 else 0
  let ds : ℚ := if (pySplitWS (pyLower e.description)).any (fun w => strIn w ql) then 1/10 else 0
  min (kw + cap + nm + ds) 1

/-- Registry state: the fields of `ToolMapManager` (the init-task table maps a
tool id to its handle, modelled as the task's cancelled flag), plus one
observation component: `cancelledInits` durably records every tool id whose
background initialization task received a `.cancel()` call (from
`remove_tool`, `cleanup`, or `asyncio.wait_for` timing out).  It is needed
because a cancelled task's `finally` block deletes its own handle from the
table, so the handle's cancelled flag alone would not survive to be observed. -/
structure RegState where
  session_id : String
  max_tools : Nat
  toolMap : List (String × ToolEntry)
  initTasks : List (String × Bool)
  cancelledInits : List String
  total_added : Nat
  total_removed : Nat
  total_executions : Nat

/-- `ToolMapManager.__init__(session_id, max_tools=20)`. -/
def freshRegistry (session_id : String) (max_tools : Nat) : RegState :=
  { session_id := session_id
    max_tools := max_tools
    toolMap := []
    initTasks := []
    cancelledInits := []
    total_added := 0
    total_removed := 0
    total_executions := 0 }

/-- Update the entry stored under `k` in place (Python mutates the dict value;
insertion order and keys are unchanged). -/
def mapUpdate {α : Type} (m : List (String × α)) (k : String) (f : α → α) :
    List (String × α) :=
  m.map (fun p => if p.1 = k then (p.1, f p.2) else p)

/-- `ToolMapManager.add_tool(tool_id, tool_instance, name, description,
handler_name, llm_config, system_prompt, capabilities, keywords, metadata)`.
Returns the new state and `Except.ok b` for a normal `return b`;
`Except.error` models the `ValueError` that `ToolEntryDTO.__post_init__`
raises out of `add_tool` when `tool_id` is empty.  When the instance has an
`initialize` attribute, `asyncio.create_task` only schedules the background
work, so at return the entry is still UNINITIALIZED and a fresh (uncancelled)
handle is recorded; the scheduled work itself is `initTool` below. -/
def addTool (st : RegState) (tool_id : String) (inst : ToolInstance)
    (name description handler_name : String) (llm_config : Dict)
    (system_prompt : String) (capabilities keywords : List String)
    (metadata : Dict) (now : Nat) : RegState × Except String Bool :=
  if st.toolMap.length ≥ st.max_tools then (st, .ok false)
  else if (lookupA st.toolMap tool_id).isSome then (st, .ok false)
  else if tool_id = "" then (st, .error "tool_id is required")
  else
    let entry : ToolEntry :=
      { tool_id := tool_id
        tool_instance := inst
        name := if name = "" then tool_id else name
        description := description
        handler_name := handler_name
        llm_config := llm_config
        system_prompt := system_prompt
        capabilities := capabilities
        keywords := keywords
        status := .uninitialized
        metadata := metadata }
    let st1 := { st with
      toolMap := st.toolMap ++ [(tool_id, entry)]
      total_added := st.total_added + 1 }
    if inst.hasInit then
      ({ st1 with initTasks := st1.initTasks ++ [(tool_id, false)] }, .ok true)
    else
      ({ st1 with toolMap := (mapUpdate st1.toolMap tool_id
          (fun e => { e with status := .ready, initialized_at := some now })) },
       .ok true)

/-- `ToolMapManager.remove_tool(tool_id)`: if a pending init handle exists,
cancel its task and drop the handle; delete the entry; bump `total_removed`. -/
def removeTool (st : RegState) (tool_id : String) : RegState × Bool :=
  if (lookupA st.toolMap tool_id).isNone then (st, false)
  else
    ({ st with
        toolMap := st.toolMap.filter (fun p => p.1 ≠ tool_id)
        initTasks := st.initTasks.filter (fun p => p.1 ≠ tool_id)
        cancelledInits :=
          if (lookupA st.initTasks tool_id).isSome then
            st.cancelledInits ++ [tool_id]
          else st.cancelledInits
        total_removed := st.total_removed + 1 },
     true)

/-- `ToolMapManager.count()`. -/
def countTools (st : RegState) : Nat := st.toolMap.length

/-- `ToolMapManager._initialize_tool(tool_id)` (the background unit of work):
run the instance's initializer, transition to READY/ERROR, record a raised
error; the `finally` block drops the task handle.  A missing id raises
`KeyError`, which the broad `except` catches and whose handler's
`if tool_id in self._tool_map` guard then does nothing. -/
def initTool (st : RegState) (tool_id : String) (now : Nat) : RegState :=
  let st1 :=
    match lookupA st.toolMap tool_id with
    | none => st
    | some e =>
      if e.tool_instance.hasInit then
        match e.tool_instance.initRet with
        | .ok true =>
            { st with toolMap := (mapUpdate st.toolMap tool_id
                (fun e => { e with status := .ready, initialized_at := some now })) }
        | .ok false =>
            { st with toolMap := (mapUpdate st.toolMap tool_id
                (fun e => { e with status := .error })) }
        | .error msg =>
            { st with toolMap := (mapUpdate st.toolMap tool_id
                (fun e => ToolEntry.recordError { e with status := .error } now msg)) }
      else
        { st with toolMap := (mapUpdate st.toolMap tool_id
            (fun e => { e with status := .ready, initialized_at := some now })) }
  { st1 with initTasks := st1.initTasks.filter (fun p => p.1 ≠ tool_id) }

/-- `ToolMapManager._ensure_tool_initialized(tool_id)`. -/
def ensureToolInited (st : RegState) (tool_id : String) (now : Nat) : RegState :=
  match lookupA st.toolMap tool_id with
  | none => st
  | some e => if e.status = .uninitialized then initTool st tool_id now else st

/-- `ToolMapManager.cleanup()`: cancel every pending handle (flag it and
record the cancellation), then remove every id present in the map (snapshot
of the keys). -/
def cleanupReg (st : RegState) : RegState :=
  let st0 := { st with
    initTasks := st.initTasks.map (fun p => (p.1, true))
    cancelledInits := st.cancelledInits ++ st.initTasks.map (fun p => p.1) }
  (st.toolMap.map (fun p => p.1)).foldl (fun s i => (removeTool s i).1) st0

/-- Result of `execute_tool`: the new registry state, the context dict as the
caller sees it after the call (the tool mutates it in place), and the returned
result dict. -/
structure ExecToolOut where
  state : RegState
  ctx : Dict
  result : Dict

/-- The `{"success": False, "error": f"Tool {id} not found", "tool": id}` result. -/
def notFoundResult (tool_id : String) : Dict :=
  [("success", Val.vBool false),
   ("error", Val.vStr ("Tool " ++ tool_id ++ " not found")),
   ("tool", Val.vStr tool_id)]

/-- The not-ready failure result. -/
def notReadyResult (tool_id : String) (s : ToolStatusENUM) : Dict :=
  [("success", Val.vBool false),
   ("error", Val.vStr ("Tool " ++ tool_id ++ " is not ready (status: " ++ s.value ++ ")")),
   ("tool", Val.vStr tool_id)]

/-- `ToolMapManager.execute_tool(tool_id, context)`.  `now` models the
`datetime.now()` stamps taken during the call and `elapsed` models
`time.time() - start_time`.  After `_ensure_tool_initialized` the code keeps
using the same (in-place mutated) entry object; lazy initialization never
removes a map entry, so the re-lookup's `getD` default is never used. -/
def executeTool (st : RegState) (tool_id : String) (ctx : Dict)
    (now : Nat) (elapsed : ℚ) : ExecToolOut :=
  match lookupA st.toolMap tool_id with
  | none => ⟨st, ctx, notFoundResult tool_id⟩
  | some e0 =>
    let st1 := if e0.status = .uninitialized then ensureToolInited st tool_id now else st
    let e := (lookupA st1.toolMap tool_id).getD e0
    if !e.isReady then ⟨st1, ctx, notReadyResult tool_id e.status⟩
    else
      let eExec := { e with status := ToolStatusENUM.executing }
      match e.tool_instance.execute ctx with
      | .ok ctx' result =>
          let e1 := eExec.updateExecutionStats now elapsed
          let e2 := e1.addToExecutionHistory now
            [("query", (lookupA ctx' "query").getD (Val.vStr "")),
             ("result", Val.vStr (pyTruncate (pyStrV (Val.vDict result)))),
             ("success", (lookupA result "success").getD (Val.vBool false)),
             ("execution_time", Val.vRat elapsed)]
          let e3 := { e2 with status := ToolStatusENUM.ready }
          ⟨{ st1 with
              toolMap := mapUpdate st1.toolMap tool_id (fun _ => e3)
              total_executions := st1.total_executions + 1 },
           ctx', result⟩
      | .raised ctx' msg =>
          let e1 := eExec.recordError now msg
          let e2 := { e1 with status := ToolStatusENUM.ready }
          ⟨{ st1 with toolMap := mapUpdate st1.toolMap tool_id (fun _ => e2) },
           ctx',
           [("success", Val.vBool false), ("error", Val.vStr msg),
            ("tool", Val.vStr tool_id)]⟩

/-- `result.get("success")` used as a condition (`if result.get("success"):`
in the sequential loop): absent means the falsy `None`. -/
def pyGetSuccess (r : Dict) : Bool :=
  match lookupA r "success" with
  | some v => v.truthy
  | none => false

/-- State of the `results` accumulator plus the run outcome of
`execute_multiple_tools` in sequential mode.  `handedCtxs` and `resSeq` are
observation traces (not part of the Python return value): the context dict as
handed to each `execute_tool` call, and the per-execution results in call
order (the Python `tool_results` dict collapses duplicate ids). -/
structure SeqRun where
  state : RegState
  ctx : Dict
  tools_executed : List String
  tool_results : List (String × Dict)
  success : Bool
  handedCtxs : List Dict
  resSeq : List Dict

/-- The sequential loop of `execute_multiple_tools`: execute in order against
the same context object; after a truthy `result.get("success")` inject the
result under `f"{tool_id}_result"`, else clear the aggregate flag; either way
continue with the remaining ids.  `sch i` supplies the `(now, elapsed)` clock
readings of the i-th call. -/
def execSeqGo (st : RegState) (ctx : Dict) (ids : List String)
    (sch : Nat → Nat × ℚ) (i : Nat) (executed : List String)
    (toolResults : List (String × Dict)) (success : Bool) : SeqRun :=
  match ids with
  | [] => ⟨st, ctx, executed, toolResults, success, [], []⟩
  | tool_id :: rest =>
    let o := executeTool st tool_id ctx (sch i).1 (sch i).2
    let executed' := executed ++ [tool_id]
    let tr' := assocSet toolResults tool_id o.result
    let isSucc := pyGetSuccess o.result
    let tail :=
      if isSucc then
        execSeqGo o.state (assocSet o.ctx (tool_id ++ "_result") (Val.vDict o.result))
          rest sch (i + 1) executed' tr' success
      else
        execSeqGo o.state o.ctx rest sch (i + 1) executed' tr' false
    { tail with
        handedCtxs := ctx :: tail.handedCtxs
        resSeq := o.result :: tail.resSeq }

/-- `execute_multiple_tools(tool_ids, context, sequential=True)` (the fields
`tools_executed = []`, `tool_results = {}`, `success = True` initialize the
results dict; `total_time` is wall-clock and carried by the caller's `sch`). -/
def execMultipleToolsSeq (st : RegState) (ids : List String) (ctx : Dict)
    (sch : Nat → Nat × ℚ) : SeqRun :=
  execSeqGo st ctx ids sch 0 [] [] true

/-- Outcome of `execute_multiple_tools` in parallel mode (same observation
traces as `SeqRun`; the shared context object is not mutated by this branch,
only the per-task copies are). -/
structure ParRun where
  state : RegState
  tools_executed : List String
  tool_results : List (String × Dict)
  success : Bool
  handedCtxs : List Dict
  resSeq : List Dict

/-- The parallel branch of `execute_multiple_tools`: the task list is built
up-front, handing each `execute_tool` call its own `context.copy()` of the
caller's context (`initCtx`); `asyncio.gather` interleavings are linearized in
list order (each tool's context and result depend only on its own copy).
`gather(..., return_exceptions=True)` can only yield an exception object if
`execute_tool` itself raises, and `execute_tool` catches every tool fault and
returns a failure dict instead, so the `isinstance(result, Exception)` branch
of the collection loop is unreachable and `results["success"]` keeps its
initial `True`. -/
def execParGo (st : RegState) (initCtx : Dict) (ids : List String)
    (sch : Nat → Nat × ℚ) (i : Nat) (executed : List String)
    (toolResults : List (String × Dict)) (success : Bool) : ParRun :=
  match ids with
  | [] => ⟨st, executed, toolResults, success, [], []⟩
  | tool_id :: rest =>
    let o := executeTool st tool_id initCtx (sch i).1 (sch i).2
    let tail := execParGo o.state initCtx rest sch (i + 1) (executed ++ [tool_id])
      (assocSet toolResults tool_id o.result) success
    { tail with
        handedCtxs := initCtx :: tail.handedCtxs
        resSeq := o.result :: tail.resSeq }

/-- `execute_multiple_tools(tool_ids, context, sequential=False)`. -/
def execMultipleToolsPar (st : RegState) (ids : List String) (ctx : Dict)
    (sch : Nat → Nat × ℚ) : ParRun :=
  execParGo st ctx ids sch 0 [] [] true

/-- Outcome of awaiting a pending handle under `asyncio.wait_for` /
`asyncio.gather`: normal completion, `asyncio.TimeoutError`, or any other
exception during the wait. -/
inductive WaitOutcome where
  | completed
  | timedOut
  | failed
deriving DecidableEq, Repr

/-- `ToolMapManager.wait_for_tool_initialization(tool_id, timeout)`.  With no
pending handle the entry's status decides the answer (Python returns the falsy
`None` when the entry is missing, modelled as `false`).  With a pending
handle the code runs `await asyncio.wait_for(task, timeout)`: on completion it
returns `true` (the completed task's own effects — status transition and
handle self-removal via its `finally` — belong to the task's transition
`initTool`, not to the wait itself); on timeout `asyncio.wait_for` CANCELS the
awaited task and waits for the cancellation to finish before raising
`TimeoutError`, so by the time the `except` returns `false` the task has been
cancelled (recorded in `cancelledInits`) and its `finally` block has deleted
its handle from the table; on any other failure (an exception completing the
awaited task) the wait itself mutates nothing and returns `false`. -/
def waitForToolInitialization (st : RegState) (tool_id : String)
    (w : WaitOutcome) : RegState × Bool :=
  match lookupA st.initTasks tool_id with
  | none =>
    match lookupA st.toolMap tool_id with
    | none => (st, false)
    | some e => (st, e.status = ToolStatusENUM.ready)
  | some _ =>
    match w with
    | .completed => (st, true)
    | .timedOut =>
        ({ st with
            initTasks := st.initTasks.filter (fun p => p.1 ≠ tool_id)
            cancelledInits := st.cancelledInits ++ [tool_id] },
         false)
    | .failed => (st, false)

/-- `ToolMapManager.wait_for_all_initializations(timeout)`: vacuous success on
an empty handle table; on joint completion clear the table (`.clear()`) and
return `true`; on timeout `asyncio.wait_for` cancels the awaited `gather`,
which cancels every pending child task — each cancellation is recorded and
each cancelled task's `finally` block deletes its own handle, so no pending
handle survives the timeout; on any other failure during the wait the helper
itself mutates nothing and returns `false`. -/
def waitForAllInitializations (st : RegState) (w : WaitOutcome) :
    RegState × Bool :=
  if st.initTasks.isEmpty then (st, true)
  else
    match w with
    | .completed => ({ st with initTasks := [] }, true)
    | .timedOut =>
        ({ st with
            initTasks := []
            cancelledInits := st.cancelledInits ++ st.initTasks.map (fun p => p.1) },
         false)
    | .failed => (st, false)

/-- One registry call, for reasoning about call sequences (claim C9). -/
inductive RegOp where
  | add (tool_id : String) (inst : ToolInstance)
      (name description handler_name : String) (llm_config : Dict)
      (system_prompt : String) (capabilities keywords : List String)
      (metadata : Dict) (now : Nat)
  | remove (tool_id : String)
  | cleanup

/-- Apply one registry call (return values discarded). -/
def applyOp (st : RegState) (op : RegOp) : RegState :=
  match op with
  | .add tool_id inst nm ds hn lc sp caps kws md now =>
      (addTool st tool_id inst nm ds hn lc sp caps kws md now).1
  | .remove tool_id => (removeTool st tool_id).1
  | .cleanup => cleanupReg st

/-- Repeated `add_to_execution_history` calls, each with its own `now` stamp. -/
def histFold (e : ToolEntry) (l : List (Nat × Dict)) : ToolEntry :=
  l.foldl (fun acc p => acc.addToExecutionHistory p.1 p.2) e

/-! Concrete scenarios used by the witness and counterexample theorems below.
Registry states are reached through `addTool` from a fresh registry, so they
are reachable program states. -/

/-- A tool with no `initialize` attribute and the given execute behaviour. -/
def mkTool (f : Dict → ExecOutcome) : ToolInstance :=
  { hasInit := false, initRet := .ok true, execute := f }

/-- A stub tool returning `{"success": True, "value": 42}`. -/
def wInstOk : ToolInstance :=
  mkTool (fun c => .ok c [("success", Val.vBool true), ("value", Val.vInt 42)])

/-- Registry with the single ready tool `"t"` (no initializer ⇒ READY at add). -/
def wSt1 : RegState :=
  (addTool (freshRegistry "s" 20) "t" wInstOk "" "" "" [] "" [] [] [] 0).1

/-- The entry `wSt1` holds under `"t"` (name defaulted to the id, READY). -/
def wEntry1 : ToolEntry :=
  { tool_id := "t", tool_instance := wInstOk, name := "t",
    status := .ready, initialized_at := some 0 }

/-- A tool whose `execute` raises an exception with an empty message
(`str(ValueError()) == ""`). -/
def cexInstRaiseEmpty : ToolInstance := mkTool (fun c => .raised c "")

/-- Registry with the ready tool `"r"` that raises an empty-message exception. -/
def cexStRaise : RegState :=
  (addTool (freshRegistry "s" 20) "r" cexInstRaiseEmpty "" "" "" [] "" [] [] [] 0).1

/-- The entry `cexStRaise` holds under `"r"`. -/
def cexEntryR : ToolEntry :=
  { tool_id := "r", tool_instance := cexInstRaiseEmpty, name := "r",
    status := .ready, initialized_at := some 0 }

/-- A tool whose `execute` raises `Exception("boom")`. -/
def wInstBoom : ToolInstance := mkTool (fun c => .raised c "boom")

/-- Registry with the ready tool `"b"` that raises `boom`. -/
def wStBoom : RegState :=
  (addTool (freshRegistry "s" 20) "b" wInstBoom "" "" "" [] "" [] [] [] 0).1

/-- The entry `wStBoom` holds under `"b"`. -/
def wEntryB : ToolEntry :=
  { tool_id := "b", tool_instance := wInstBoom, name := "b",
    status := .ready, initialized_at := some 0 }

/-- Succeeds and leaves its context alone. -/
def cexInstA : ToolInstance := mkTool (fun c => .ok c [("success", Val.vBool true)])

/-- Succeeds but clears the shared context dict it was handed
(`context.clear()` inside the tool). -/
def cexInstB : ToolInstance := mkTool (fun _ => .ok [] [("success", Val.vBool true)])

/-- Registry with ready tools `"A"` (well-behaved), `"B"` (clears the shared
context) and `"C"` (well-behaved). -/
def cexStABC : RegState :=
  (addTool ((addTool ((addTool (freshRegistry "s" 20) "A" cexInstA "" "" "" [] "" [] [] [] 0).1)
      "B" cexInstB "" "" "" [] "" [] [] [] 0).1)
    "C" cexInstA "" "" "" [] "" [] [] [] 0).1

/-- Sequential batch `["A", "B", "C"]` over an initially empty shared context. -/
def cexSeqRun : SeqRun :=
  execMultipleToolsSeq cexStABC ["A", "B", "C"] [] (fun _ => (0, 0))

/-- Registry with the single ready tool `"F"` that raises `boom`. -/
def cexStF : RegState :=
  (addTool (freshRegistry "s" 20) "F" wInstBoom "" "" "" [] "" [] [] [] 0).1

/-- Parallel batch `["F"]`: the tool fails, the batch flag stays `True`. -/
def cexParRun : ParRun := execMultipleToolsPar cexStF ["F"] [] (fun _ => (0, 0))

/-- A tool with an `initialize` attribute (so `add_tool` spawns a handle). -/
def wInstWithInit : ToolInstance :=
  { hasInit := true, initRet := .ok true, execute := fun c => .ok c [] }

/-- Registry with tool `"p"` whose background initialization is still pending. -/
def wStPend : RegState :=
  (addTool (freshRegistry "s" 20) "p" wInstWithInit "" "" "" [] "" [] [] [] 0).1

/-- An entry with `max_history_size = 0` (constructible: the dataclass does not
validate the field). -/
def cexEntry0 : ToolEntry :=
  { tool_id := "z", tool_instance := wInstOk, max_history_size := 0 }

/-- An entry with the default `max_history_size = 50` and empty history. -/
def wEntry7 : ToolEntry := { tool_id := "w", tool_instance := wInstOk }

/-- Matching witness entry: keywords, capabilities, name, description set. -/
def wEntryM : ToolEntry :=
  { tool_id := "cost_estimator", tool_instance := wInstOk, name := "Cost Estimator",
    description := "estimates cost", capabilities := ["estimation"],
    keywords := ["cost", "estimate"] }

/-- Entry whose name is the empty string (every other matcher field empty). -/
def wEntryEmptyName : ToolEntry := { tool_id := "x", tool_instance := wInstOk }

/-- Entry with an empty-string keyword. -/
def wEntryEmptyKw : ToolEntry :=
  { tool_id := "y", tool_instance := wInstOk, name := "q", keywords := [""] }

/-- The registry bookkeeping invariant of claim C9: the live entry count plus
the removals equals the additions, and entry keys are distinct (Python dict
keys are unique; the association list mirrors that). -/
def RegInv (st : RegState) : Prop :=
  countTools st + st.total_removed = st.total_added ∧ (st.toolMap.map Prod.fst).Nodup

/-! ### Association-list lemmas -/

theorem lookupA_assocSet {α : Type} (m : List (String × α)) (k k' : String) (v : α) :
    lookupA (assocSet m k v) k' = if k = k' then some v else lookupA m k' := by
  induction m with
  | nil => simp [assocSet, lookupA]
  | cons p rest ih =>
    obtain ⟨pk, pv⟩ := p
    by_cases h : pk = k
    · subst h
      by_cases h' : pk = k'
      · subst h'
        simp [assocSet, lookupA]
      · simp [assocSet, lookupA, h']
    · by_cases h' : pk = k'
      · subst h'
        have hne : ¬ k = pk := fun hc => h hc.symm
        simp [assocSet, lookupA, h, hne]
      · simp [assocSet, lookupA, h, h', ih]

theorem lookupA_append_of_none {α : Type} (m l : List (String × α)) (k : String)
    (h : lookupA m k = none) : lookupA (m ++ l) k = lookupA l k := by
  induction m with
  | nil => simp
  | cons p rest ih =>
    obtain ⟨pk, pv⟩ := p
    by_cases hk : pk = k
    · simp [lookupA, hk] at h
    · simp only [lookupA, if_neg hk] at h
      simpa [lookupA, if_neg hk] using ih h

theorem mapUpdate_cons {α : Type} (pk : String) (pv : α)
    (rest : List (String × α)) (k : String) (f : α → α) :
    mapUpdate ((pk, pv) :: rest) k f =
      (if pk = k then (pk, f pv) else (pk, pv)) :: mapUpdate rest k f := by
  by_cases h : pk = k <;> simp [mapUpdate, h]

theorem lookupA_mapUpdate {α : Type} (m : List (String × α)) (k : String)
    (f : α → α) : lookupA (mapUpdate m k f) k = (lookupA m k).map f := by
  induction m with
  | nil => simp [mapUpdate, lookupA]
  | cons p rest ih =>
    obtain ⟨pk, pv⟩ := p
    by_cases hk : pk = k
    · subst hk
      rw [mapUpdate_cons, if_pos rfl]
      simp [lookupA]
    · rw [mapUpdate_cons, if_neg hk]
      simp [lookupA, hk, ih]

theorem mapUpdate_map_fst {α : Type} (m : List (String × α)) (k : String)
    (f : α → α) : (mapUpdate m k f).map Prod.fst = m.map Prod.fst := by
  induction m with
  | nil => rfl
  | cons p rest ih =>
    obtain ⟨pk, pv⟩ := p
    by_cases hk : pk = k <;> simp [mapUpdate, hk] at ih ⊢ <;> exact ih

theorem lookupA_isSome_iff_mem {α : Type} (m : List (String × α)) (k : String) :
    (lookupA m k).isSome = true ↔ k ∈ m.map Prod.fst := by
  induction m with
  | nil => simp [lookupA]
  | cons p rest ih =>
    obtain ⟨pk, pv⟩ := p
    by_cases hk : pk = k
    · subst hk
      simp [lookupA]
    · have hne : ¬ k = pk := fun h => hk h.symm
      simp only [lookupA, if_neg hk, List.map_cons, List.mem_cons, hne, false_or]
      exact ih

theorem lookupA_eq_none_iff_not_mem {α : Type} (m : List (String × α)) (k : String) :
    lookupA m k = none ↔ k ∉ m.map Prod.fst := by
  rw [← lookupA_isSome_iff_mem]
  cases lookupA m k <;> simp

theorem length_filter_ne_of_mem {α : Type} (m : List (String × α)) (k : String)
    (hnd : (m.map Prod.fst).Nodup) (h : (lookupA m k).isSome = true) :
    (m.filter (fun p => p.1 ≠ k)).length + 1 = m.length := by
  induction m with
  | nil => simp [lookupA] at h
  | cons p rest ih =>
    obtain ⟨pk, pv⟩ := p
    simp only [List.map_cons, List.nodup_cons] at hnd
    by_cases hk : pk = k
    · subst hk
      have hrest : rest.filter (fun p => p.1 ≠ pk) = rest := by
        rw [List.filter_eq_self]
        rintro ⟨a, b⟩ hab
        have ha : a ∈ rest.map Prod.fst := List.mem_map_of_mem Prod.fst hab
        have hne : a ≠ pk := fun hc => hnd.1 (hc ▸ ha)
        simpa using hne
      have hhead : ((pk, pv) :: rest).filter (fun p => p.1 ≠ pk)
          = rest.filter (fun p => p.1 ≠ pk) := by
        simp [List.filter_cons]
      rw [hhead, hrest]
      simp
    · simp only [lookupA, if_neg hk] at h
      have hlen := ih hnd.2 h
      have hhead : ((pk, pv) :: rest).filter (fun p => p.1 ≠ k)
          = (pk, pv) :: rest.filter (fun p => p.1 ≠ k) := by
        simp [List.filter_cons, hk]
      rw [hhead]
      simp only [List.length_cons]
      omega

theorem lookupA_filter_ne_self {α : Type} (m : List (String × α)) (k : String) :
    lookupA (m.filter (fun p => p.1 ≠ k)) k = none := by
  induction m with
  | nil => simp [lookupA]
  | cons p rest ih =>
    obtain ⟨pk, pv⟩ := p
    by_cases hk : pk = k
    · subst hk
      simpa [List.filter_cons] using ih
    · simp only [List.filter_cons, ne_eq, hk, not_false_eq_true, decide_not]
      simpa [lookupA, hk] using ih

theorem nodup_keys_filter {α : Type} (m : List (String × α)) (q : String × α → Bool)
    (hnd : (m.map Prod.fst).Nodup) : ((m.filter q).map Prod.fst).Nodup :=
  ((List.filter_sublist m).map Prod.fst).nodup hnd

/-! ### Execution-history lemmas, matching-score lemmas, registry lemmas -/

theorem addHist_history_eq (e : ToolEntry) (now : Nat) (rec : Dict)
    (hmax : 1 ≤ e.max_history_size) :
    (e.addToExecutionHistory now rec).execution_history =
      (e.execution_history ++ [stampRec now rec]).drop
        (e.execution_history.length + 1 - e.max_history_size) := by
  simp only [ToolEntry.addToExecutionHistory]
  by_cases h : (e.execution_history ++ [stampRec now rec]).length > e.max_history_size
  · simp only [if_pos h, pySliceLast]
    rw [if_neg (by omega)]
    congr 1
    simp [List.length_append]
  · simp only [if_neg h]
    have h0 : e.execution_history.length + 1 - e.max_history_size = 0 := by
      simp only [List.length_append, List.length_cons, List.length_nil] at h
      omega
    simp [h0]

theorem drop_chain {α : Type} (A B : List α) (mx : Nat) :
    ((A.drop (A.length - mx)) ++ B).drop
        ((A.drop (A.length - mx)).length + B.length - mx) =
      (A ++ B).drop (A.length + B.length - mx) := by
  by_cases hA : A.length ≤ mx
  · have h0 : A.length - mx = 0 := by omega
    simp [h0]
  · have hd : (A.drop (A.length - mx)).length = mx := by
      rw [List.length_drop]; omega
    by_cases hB : B.length ≤ mx
    · have h2 : (A.drop (A.length - mx)).length + B.length - mx
          ≤ (A.drop (A.length - mx)).length := by rw [hd]; omega
      rw [List.drop_append_of_le_length h2, List.drop_drop]
      have h4 : A.length + B.length - mx ≤ A.length := by omega
      rw [List.drop_append_of_le_length h4]
      have harith : A.length - mx + ((A.drop (A.length - mx)).length + B.length - mx)
          = A.length + B.length - mx := by rw [hd]; omega
      rw [harith]
    · have e1 : (A.drop (A.length - mx)).length + B.length - mx
          = (A.drop (A.length - mx)).length + (B.length - mx) := by rw [hd]; omega
      rw [e1, List.drop_append]
      have e2 : A.length + B.length - mx = A.length + (B.length - mx) := by omega
      rw [e2, List.drop_append]


theorem addHist_max (e : ToolEntry) (now : Nat) (rec : Dict) :
    (e.addToExecutionHistory now rec).max_history_size = e.max_history_size := rfl

theorem histFold_history_eq (l : List (Nat × Dict)) (e : ToolEntry)
    (hmax : 1 ≤ e.max_history_size) (hne : l ≠ []) :
    (histFold e l).execution_history =
      (e.execution_history ++ l.map (fun p => stampRec p.1 p.2)).drop
        (e.execution_history.length + l.length - e.max_history_size) := by
  induction l generalizing e with
  | nil => exact absurd rfl hne
  | cons p t ih =>
    have hstep : histFold e (p :: t) = histFold (e.addToExecutionHistory p.1 p.2) t := rfl
    by_cases ht : t = []
    · subst ht
      rw [hstep]
      show (e.addToExecutionHistory p.1 p.2).execution_history = _
      rw [addHist_history_eq e p.1 p.2 hmax]
      simp
    · rw [hstep]
      have hmax1 : 1 ≤ (e.addToExecutionHistory p.1 p.2).max_history_size := by
        rw [addHist_max]; exact hmax
      rw [ih (e.addToExecutionHistory p.1 p.2) hmax1 ht]
      rw [addHist_history_eq e p.1 p.2 hmax, addHist_max]
      have hB : t.length = (t.map (fun p => stampRec p.1 p.2)).length := by simp
      rw [hB]
      have hA : e.execution_history.length + 1 - e.max_history_size
          = (e.execution_history ++ [stampRec p.1 p.2]).length - e.max_history_size := by
        simp
      rw [hA, drop_chain]
      rw [List.append_assoc]
      have hcons : [stampRec p.1 p.2] ++ t.map (fun p => stampRec p.1 p.2)
          = (p :: t).map (fun p => stampRec p.1 p.2) := by simp
      rw [hcons]
      congr 1
      simp
      omega


theorem containsSub_nil_true (l : List Char) : containsSub [] l = true := by
  cases l <;> simp [containsSub, List.isPrefixOf]

theorem strIn_empty (s : String) : strIn "" s = true := containsSub_nil_true _

theorem mq_nonneg (e : ToolEntry) (q : String) : 0 ≤ e.matchesQuery q := by
  simp only [ToolEntry.matchesQuery]
  refine le_min ?_ (by norm_num)
  have h1 : (0:ℚ) ≤ ((e.keywords.filter (fun k => strIn (pyLower k) (pyLower q))).length : ℚ) * (2/5) := by positivity
  have h2 : (0:ℚ) ≤ ((e.capabilities.filter (fun c => strIn (pyLower c) (pyLower q))).length : ℚ) * (3/10) := by positivity
  have h3 : (0:ℚ) ≤ if strIn (pyLower e.name) (pyLower q) then (1/5:ℚ) else 0 := by
    split <;> norm_num
  have h4 : (0:ℚ) ≤ if (pySplitWS (pyLower e.description)).any (fun w => strIn w (pyLower q)) then (1/10:ℚ) else 0 := by
    split <;> norm_num
  linarith

theorem mq_le_one (e : ToolEntry) (q : String) : e.matchesQuery q ≤ 1 := by
  simp only [ToolEntry.matchesQuery]
  exact min_le_right _ _

theorem mq_ge_of_keyword (e : ToolEntry) (q : String) (k : String)
    (hk : k ∈ e.keywords) (hs : strIn (pyLower k) (pyLower q) = true) :
    2/5 ≤ e.matchesQuery q := by
  simp only [ToolEntry.matchesQuery]
  refine le_min ?_ (by norm_num)
  have hmem : k ∈ e.keywords.filter (fun k => strIn (pyLower k) (pyLower q)) :=
    List.mem_filter.mpr ⟨hk, hs⟩
  have hpos : 0 < (e.keywords.filter (fun k => strIn (pyLower k) (pyLower q))).length :=
    List.length_pos.mpr (List.ne_nil_of_mem hmem)
  have hcast : (1:ℚ) ≤ ((e.keywords.filter (fun k => strIn (pyLower k) (pyLower q))).length : ℚ) := by
    exact_mod_cast hpos
  have h1 : (2/5:ℚ) ≤ ((e.keywords.filter (fun k => strIn (pyLower k) (pyLower q))).length : ℚ) * (2/5) := by
    nlinarith
  have h2 : (0:ℚ) ≤ ((e.capabilities.filter (fun c => strIn (pyLower c) (pyLower q))).length : ℚ) * (3/10) := by positivity
  have h3 : (0:ℚ) ≤ if strIn (pyLower e.name) (pyLower q) then (1/5:ℚ) else 0 := by
    split <;> norm_num
  have h4 : (0:ℚ) ≤ if (pySplitWS (pyLower e.description)).any (fun w => strIn w (pyLower q)) then (1/10:ℚ) else 0 := by
    split <;> norm_num
  linarith

theorem mq_eq_zero (e : ToolEntry) (q : String)
    (hkw : ∀ k ∈ e.keywords, strIn (pyLower k) (pyLower q) = false)
    (hcap : ∀ c ∈ e.capabilities, strIn (pyLower c) (pyLower q) = false)
    (hnm : strIn (pyLower e.name) (pyLower q) = false)
    (hds : ∀ w ∈ pySplitWS (pyLower e.description), strIn w (pyLower q) = false) :
    e.matchesQuery q = 0 := by
  simp only [ToolEntry.matchesQuery]
  have h1 : e.keywords.filter (fun k => strIn (pyLower k) (pyLower q)) = [] :=
    List.filter_eq_nil_iff.mpr (fun a ha => by simp [hkw a ha])
  have h2 : e.capabilities.filter (fun c => strIn (pyLower c) (pyLower q)) = [] :=
    List.filter_eq_nil_iff.mpr (fun a ha => by simp [hcap a ha])
  have h4 : (pySplitWS (pyLower e.description)).any (fun w => strIn w (pyLower q)) = false := by
    rw [List.any_eq_false]
    intro w hw
    simp [hds w hw]
  simp [h1, h2, hnm, h4]

theorem mq_ge_of_empty_name (e : ToolEntry) (q : String) (hn : e.name = "") :
    1/5 ≤ e.matchesQuery q := by
  simp only [ToolEntry.matchesQuery]
  refine le_min ?_ (by norm_num)
  have hnm : strIn (pyLower e.name) (pyLower q) = true := by
    rw [hn]
    have hl : pyLower "" = "" := rfl
    rw [hl]
    exact strIn_empty _
  rw [hnm]
  have h1 : (0:ℚ) ≤ ((e.keywords.filter (fun k => strIn (pyLower k) (pyLower q))).length : ℚ) * (2/5) := by positivity
  have h2 : (0:ℚ) ≤ ((e.capabilities.filter (fun c => strIn (pyLower c) (pyLower q))).length : ℚ) * (3/10) := by positivity
  have h4 : (0:ℚ) ≤ if (pySplitWS (pyLower e.description)).any (fun w => strIn w (pyLower q)) then (1/10:ℚ) else 0 := by
    split <;> norm_num
  simp only [if_true]
  linarith

theorem addTool_inv (st : RegState) (tool_id : String) (inst : ToolInstance)
    (nm ds hn : String) (lc : Dict) (sp : String) (caps kws : List String)
    (md : Dict) (now : Nat) (h : RegInv st) :
    RegInv (addTool st tool_id inst nm ds hn lc sp caps kws md now).1 := by
  unfold addTool
  by_cases hcap : st.toolMap.length ≥ st.max_tools
  · simpa [hcap] using h
  · by_cases hdup : (lookupA st.toolMap tool_id).isSome = true
    · simp only [if_neg hcap, hdup, if_true]
      exact h
    · have hnone : lookupA st.toolMap tool_id = none := by
        cases hx : lookupA st.toolMap tool_id with
        | none => rfl
        | some v => simp [hx] at hdup
      have hnotmem : tool_id ∉ st.toolMap.map Prod.fst :=
        (lookupA_eq_none_iff_not_mem _ _).mp hnone
      by_cases hid : tool_id = ""
      · simp only [if_neg hcap, hnone, Option.isSome_none, Bool.false_eq_true,
          if_false, if_pos hid]
        exact h
      · by_cases hinit : inst.hasInit
        · simp only [if_neg hcap, hnone, Option.isSome_none, Bool.false_eq_true,
            if_false, if_neg hid, if_pos hinit]
        
          constructor
          · simp only [countTools, List.length_append, List.length_cons,
              List.length_nil]
            have := h.1
            simp only [countTools] at this
            omega
          · simp only [List.map_append, List.map_cons, List.map_nil]
            rw [List.nodup_append]
            exact ⟨h.2, List.nodup_singleton _, by simpa using hnotmem⟩
        · simp only [if_neg hcap, hnone, Option.isSome_none, Bool.false_eq_true,
            if_false, if_neg hid, if_neg hinit]
          constructor
          · simp only [countTools, mapUpdate, List.length_map,
              List.length_append, List.length_cons, List.length_nil]
            have := h.1
            simp only [countTools] at this
            omega
          · rw [mapUpdate_map_fst]
            simp only [List.map_append, List.map_cons, List.map_nil]
            rw [List.nodup_append]
            exact ⟨h.2, List.nodup_singleton _, by simpa using hnotmem⟩

theorem removeTool_inv (st : RegState) (tool_id : String) (h : RegInv st) :
    RegInv (removeTool st tool_id).1 := by
  unfold removeTool
  by_cases habs : (lookupA st.toolMap tool_id).isNone = true
  · simp only [habs, if_true]
    exact h
  · have hsome : (lookupA st.toolMap tool_id).isSome = true := by
      cases hx : lookupA st.toolMap tool_id with
      | none => simp [hx] at habs
      | some v => simp
    simp only [habs, Bool.false_eq_true, if_false]
    constructor
    · have hlen := length_filter_ne_of_mem st.toolMap tool_id h.2 hsome
      have := h.1
      simp only [countTools] at this ⊢
      omega
    · exact nodup_keys_filter _ _ h.2

theorem removeFold_inv (ids : List String) (st : RegState) (h : RegInv st) :
    RegInv (ids.foldl (fun s i => (removeTool s i).1) st) := by
  induction ids generalizing st with
  | nil => exact h
  | cons a t ih => exact ih _ (removeTool_inv st a h)

theorem cleanupReg_inv (st : RegState) (h : RegInv st) : RegInv (cleanupReg st) := by
  unfold cleanupReg
  exact removeFold_inv _ _ ⟨h.1, h.2⟩

theorem applyOp_inv (st : RegState) (op : RegOp) (h : RegInv st) :
    RegInv (applyOp st op) := by
  cases op with
  | add tool_id inst nm ds hn lc sp caps kws md now =>
      exact addTool_inv st tool_id inst nm ds hn lc sp caps kws md now h
  | remove tool_id => exact removeTool_inv st tool_id h
  | cleanup => exact cleanupReg_inv st h

theorem foldOps_inv (ops : List RegOp) (st : RegState) (h : RegInv st) :
    RegInv (ops.foldl applyOp st) := by
  induction ops generalizing st with
  | nil => exact h
  | cons op t ih => exact ih _ (applyOp_inv st op h)

theorem addTool_name_default (st : RegState) (tool_id : String) (inst : ToolInstance)
    (ds hn : String) (lc : Dict) (sp : String) (caps kws : List String)
    (md : Dict) (now : Nat)
    (hok : (addTool st tool_id inst "" ds hn lc sp caps kws md now).2 = Except.ok true) :
    (lookupA (addTool st tool_id inst "" ds hn lc sp caps kws md now).1.toolMap tool_id).map
      ToolEntry.name = some tool_id := by
  unfold addTool at hok ⊢
  by_cases hcap : st.toolMap.length ≥ st.max_tools
  · simp [hcap] at hok
  · by_cases hdup : (lookupA st.toolMap tool_id).isSome = true
    · simp [if_neg hcap, hdup] at hok
    · have hnone : lookupA st.toolMap tool_id = none := by
        cases hx : lookupA st.toolMap tool_id with
        | none => rfl
        | some v => simp [hx] at hdup
      by_cases hid : tool_id = ""
      · rw [if_neg hcap] at hok
        rw [hnone] at hok
        simp [hid] at hok
      · by_cases hinit : inst.hasInit
        · simp only [if_neg hcap, hnone, Option.isSome_none, Bool.false_eq_true,
            if_false, if_neg hid, if_pos hinit]
          rw [lookupA_append_of_none _ _ _ hnone]
          simp [lookupA, hid]
        · simp only [if_neg hcap, hnone, Option.isSome_none, Bool.false_eq_true,
            if_false, if_neg hid, if_neg hinit]
          rw [lookupA_mapUpdate, lookupA_append_of_none _ _ _ hnone]
          simp [lookupA, hid]

theorem execSeqGo_executed (ids : List String) (st : RegState) (ctx : Dict)
    (sch : Nat → Nat × ℚ) (i : Nat) (ex : List String)
    (tr : List (String × Dict)) (su : Bool) :
    (execSeqGo st ctx ids sch i ex tr su).tools_executed = ex ++ ids := by
  induction ids generalizing st ctx i ex tr su with
  | nil => simp [execSeqGo]
  | cons a rest ih =>
    simp only [execSeqGo]
    split <;> simp [ih]

theorem execSeqGo_results_present (ids : List String) (st : RegState) (ctx : Dict)
    (sch : Nat → Nat × ℚ) (i : Nat) (ex : List String)
    (tr : List (String × Dict)) (su : Bool) (id : String)
    (h : id ∈ ids ∨ (lookupA tr id).isSome = true) :
    (lookupA (execSeqGo st ctx ids sch i ex tr su).tool_results id).isSome = true := by
  induction ids generalizing st ctx i ex tr su with
  | nil =>
    rcases h with h | h
    · simp at h
    · simpa [execSeqGo] using h
  | cons a rest ih =>
    simp only [execSeqGo]
    have hnext : ∀ (v : Dict), id ∈ rest ∨ (lookupA (assocSet tr a v) id).isSome = true := by
      intro v
      rcases h with h | h
      · rcases List.mem_cons.mp h with h | h
        · right
          subst h
          rw [lookupA_assocSet]
          simp
        · left
          exact h
      · right
        rw [lookupA_assocSet]
        split <;> simp [h]
    split <;> exact ih _ _ _ _ _ _ (hnext _)

theorem execSeqGo_resSeq_len (ids : List String) (st : RegState) (ctx : Dict)
    (sch : Nat → Nat × ℚ) (i : Nat) (ex : List String)
    (tr : List (String × Dict)) (su : Bool) :
    (execSeqGo st ctx ids sch i ex tr su).resSeq.length = ids.length := by
  induction ids generalizing st ctx i ex tr su with
  | nil => simp [execSeqGo]
  | cons a rest ih =>
    simp only [execSeqGo]
    split <;> simp [ih]

theorem execSeqGo_success (ids : List String) (st : RegState) (ctx : Dict)
    (sch : Nat → Nat × ℚ) (i : Nat) (ex : List String)
    (tr : List (String × Dict)) (su : Bool) :
    (execSeqGo st ctx ids sch i ex tr su).success =
      (su && (execSeqGo st ctx ids sch i ex tr su).resSeq.all pyGetSuccess) := by
  induction ids generalizing st ctx i ex tr su with
  | nil => simp [execSeqGo]
  | cons a rest ih =>
    simp only [execSeqGo]
    split
    · rename_i hs
      simp only [List.all_cons, hs, Bool.true_and]
      exact ih _ _ _ _ _ _
    · rename_i hs
      have hs' : pyGetSuccess (executeTool st a ctx (sch i).1 (sch i).2).result = false := by
        revert hs
        cases pyGetSuccess (executeTool st a ctx (sch i).1 (sch i).2).result <;> simp
      simp only [List.all_cons, hs', Bool.false_and, Bool.and_false]
      rw [ih]
      simp

theorem execSeqGo_handed_zero (ids : List String) (st : RegState) (ctx : Dict)
    (sch : Nat → Nat × ℚ) (i : Nat) (ex : List String)
    (tr : List (String × Dict)) (su : Bool) :
    (execSeqGo st ctx ids sch i ex tr su).handedCtxs[0]? =
      ids.head?.map (fun _ => ctx) := by
  cases ids with
  | nil => simp [execSeqGo]
  | cons a rest =>
    simp only [execSeqGo]
    split <;> simp

theorem execSeqGo_chain (ids : List String) (st : RegState) (ctx : Dict)
    (sch : Nat → Nat × ℚ) (i : Nat) (ex : List String)
    (tr : List (String × Dict)) (su : Bool) (j : Nat) (idj : String)
    (r : Dict) (c : Dict)
    (hid : ids[j]? = some idj)
    (hr : (execSeqGo st ctx ids sch i ex tr su).resSeq[j]? = some r)
    (hsucc : pyGetSuccess r = true)
    (hc : (execSeqGo st ctx ids sch i ex tr su).handedCtxs[j + 1]? = some c) :
    lookupA c (idj ++ "_result") = some (Val.vDict r) := by
  induction ids generalizing st ctx i ex tr su j with
  | nil => simp at hid
  | cons a rest ih =>
    cases j with
    | zero =>
      have hida : idj = a := by simpa using hid.symm
      subst hida
      simp only [execSeqGo] at hr hc
      by_cases hs : pyGetSuccess (executeTool st idj ctx (sch i).1 (sch i).2).result = true
      · rw [if_pos hs] at hr hc
        simp only [List.getElem?_cons_zero, Option.some_inj] at hr
        simp only [List.getElem?_cons_succ] at hc
        rw [execSeqGo_handed_zero] at hc
        cases rest with
        | nil => simp at hc
        | cons b t =>
          simp only [List.head?_cons, Option.map_some', Option.some_inj] at hc
          have hceq : c = assocSet
              (executeTool st idj ctx (sch i).1 (sch i).2).ctx (idj ++ "_result")
              (Val.vDict (executeTool st idj ctx (sch i).1 (sch i).2).result) := hc.symm
          subst hceq
          rw [lookupA_assocSet, if_pos rfl, hr]
      · rw [if_neg hs] at hr hc
        simp only [List.getElem?_cons_zero, Option.some_inj] at hr
        rw [hr] at hs
        exact absurd hsucc hs
    | succ j' =>
      simp only [List.getElem?_cons_succ] at hid
      simp only [execSeqGo] at hr hc
      by_cases hs : pyGetSuccess (executeTool st a ctx (sch i).1 (sch i).2).result = true
      · rw [if_pos hs] at hr hc
        simp only [List.getElem?_cons_succ] at hr hc
        exact ih _ _ _ _ _ _ _ hid hr hc
      · rw [if_neg hs] at hr hc
        simp only [List.getElem?_cons_succ] at hr hc
        exact ih _ _ _ _ _ _ _ hid hr hc

theorem execParGo_executed (ids : List String) (st : RegState) (initCtx : Dict)
    (sch : Nat → Nat × ℚ) (i : Nat) (ex : List String)
    (tr : List (String × Dict)) (su : Bool) :
    (execParGo st initCtx ids sch i ex tr su).tools_executed = ex ++ ids := by
  induction ids generalizing st i ex tr su with
  | nil => simp [execParGo]
  | cons a rest ih => simp [execParGo, ih]

theorem execParGo_handed (ids : List String) (st : RegState) (initCtx : Dict)
    (sch : Nat → Nat × ℚ) (i : Nat) (ex : List String)
    (tr : List (String × Dict)) (su : Bool) :
    (execParGo st initCtx ids sch i ex tr su).handedCtxs =
      List.replicate ids.length initCtx := by
  induction ids generalizing st i ex tr su with
  | nil => simp [execParGo]
  | cons a rest ih => simp [execParGo, ih, List.replicate_succ]

theorem execParGo_results_present (ids : List String) (st : RegState)
    (initCtx : Dict) (sch : Nat → Nat × ℚ) (i : Nat) (ex : List String)
    (tr : List (String × Dict)) (su : Bool) (id : String)
    (h : id ∈ ids ∨ (lookupA tr id).isSome = true) :
    (lookupA (execParGo st initCtx ids sch i ex tr su).tool_results id).isSome = true := by
  induction ids generalizing st i ex tr su with
  | nil =>
    rcases h with h | h
    · simp at h
    · simpa [execParGo] using h
  | cons a rest ih =>
    simp only [execParGo]
    apply ih
    rcases h with h | h
    · rcases List.mem_cons.mp h with h | h
      · right
        subst h
        rw [lookupA_assocSet]
        simp
      · left
        exact h
    · right
      rw [lookupA_assocSet]
      split <;> simp [h]

theorem execParGo_resSeq_len (ids : List String) (st : RegState) (initCtx : Dict)
    (sch : Nat → Nat × ℚ) (i : Nat) (ex : List String)
    (tr : List (String × Dict)) (su : Bool) :
    (execParGo st initCtx ids sch i ex tr su).resSeq.length = ids.length := by
  induction ids generalizing st i ex tr su with
  | nil => simp [execParGo]
  | cons a rest ih => simp [execParGo, ih]

theorem execParGo_success (ids : List String) (st : RegState) (initCtx : Dict)
    (sch : Nat → Nat × ℚ) (i : Nat) (ex : List String)
    (tr : List (String × Dict)) (su : Bool) :
    (execParGo st initCtx ids sch i ex tr su).success = su := by
  induction ids generalizing st i ex tr su with
  | nil => simp [execParGo]
  | cons a rest ih => simp [execParGo, ih]

/-! ### Claim theorems -/

/-- C1: for every tool entry in READY status whose execute operation returns a
result map containing `success == true`, `execute_tool(id, context)` increments
that entry's `execution_count` by exactly 1, sets `average_execution_time` to
`total_execution_time / execution_count`, increments the registry's
`total_executions` by 1, returns the tool's result unchanged, and leaves the
entry's status READY immediately after the call returns. -/
theorem C1_execute_success_roundtrip (st : RegState) (tool_id : String)
    (e : ToolEntry) (ctx ctx' result : Dict) (now : Nat) (elapsed : ℚ)
    (hlook : lookupA st.toolMap tool_id = some e)
    (hready : e.status = ToolStatusENUM.ready)
    (hexec : e.tool_instance.execute ctx = ExecOutcome.ok ctx' result)
    (hsucc : lookupA result "success" = some (Val.vBool true)) :
    ∃ e', lookupA (executeTool st tool_id ctx now elapsed).state.toolMap tool_id = some e' ∧
      e'.execution_count = e.execution_count + 1 ∧
      e'.average_execution_time = e'.total_execution_time / (e'.execution_count : ℚ) ∧
      (executeTool st tool_id ctx now elapsed).state.total_executions = st.total_executions + 1 ∧
      (executeTool st tool_id ctx now elapsed).result = result ∧
      e'.status = ToolStatusENUM.ready := by
  simp only [executeTool, hlook, hready, hexec, ToolEntry.isReady]
  simp only [reduceCtorEq, if_false, Option.getD_some]
  simp only [hlook, Option.getD_some, hready, ToolEntry.isReady]
  simp only [reduceCtorEq, hexec, decide_True, Bool.not_true, Bool.false_eq_true, if_false]
  simp only [lookupA_mapUpdate, hlook, Option.map_some']
  refine ⟨_, rfl, ?_, ?_, ?_, ?_, ?_⟩ <;>
    simp [ToolEntry.addToExecutionHistory, ToolEntry.updateExecutionStats]

/-- Witness for C1 at a concrete input: registry `wSt1` holds the READY tool
`"t"` whose stub returns `{"success": True, "value": 42}`. -/
theorem C1_execute_success_roundtrip_witness :
    ∃ e', lookupA (executeTool wSt1 "t" [] 7 1).state.toolMap "t" = some e' ∧
      e'.execution_count = wEntry1.execution_count + 1 ∧
      e'.average_execution_time = e'.total_execution_time / (e'.execution_count : ℚ) ∧
      (executeTool wSt1 "t" [] 7 1).state.total_executions = wSt1.total_executions + 1 ∧
      (executeTool wSt1 "t" [] 7 1).result =
        [("success", Val.vBool true), ("value", Val.vInt 42)] ∧
      e'.status = ToolStatusENUM.ready :=
  C1_execute_success_roundtrip wSt1 "t" wEntry1 [] []
    [("success", Val.vBool true), ("value", Val.vInt 42)] 7 1 rfl rfl rfl rfl

/-- C2 counterexample: the claim asserts the returned result carries a
non-empty error string, but `error` is `str(e)`, which is empty for an
exception constructed with no message (`str(ValueError()) == ""`).  Here the
READY tool `"r"` of `cexStRaise` raises such an exception and the returned
`error` field is the empty string. -/
theorem C2_empty_error_counterexample :
    cexEntryR.status = ToolStatusENUM.ready ∧
    lookupA cexStRaise.toolMap "r" = some cexEntryR ∧
    (executeTool cexStRaise "r" [] 1 0).result =
      [("success", Val.vBool false), ("error", Val.vStr ""), ("tool", Val.vStr "r")] :=
  ⟨rfl, rfl, rfl⟩

/-- C2 (amended): for every tool entry in READY status whose execute operation
raises any exception, `execute_tool(id, context)` leaves the entry's status
READY afterward, increments the entry's `error_count` by 1, does not increment
`execution_count` or `total_executions`, and returns a result map with
`success == False`, the `error` field equal to the exception's message string
(which may be empty, e.g. for `ValueError()`), and the `tool` field equal to
the id. -/
theorem C2_execute_raise_amended (st : RegState) (tool_id : String)
    (e : ToolEntry) (ctx ctx' : Dict) (msg : String) (now : Nat) (elapsed : ℚ)
    (hlook : lookupA st.toolMap tool_id = some e)
    (hready : e.status = ToolStatusENUM.ready)
    (hexec : e.tool_instance.execute ctx = ExecOutcome.raised ctx' msg) :
    ∃ e', lookupA (executeTool st tool_id ctx now elapsed).state.toolMap tool_id = some e' ∧
      e'.status = ToolStatusENUM.ready ∧
      e'.error_count = e.error_count + 1 ∧
      e'.execution_count = e.execution_count ∧
      (executeTool st tool_id ctx now elapsed).state.total_executions = st.total_executions ∧
      (executeTool st tool_id ctx now elapsed).result =
        [("success", Val.vBool false), ("error", Val.vStr msg), ("tool", Val.vStr tool_id)] := by
  simp only [executeTool, hlook, hready, hexec, ToolEntry.isReady]
  simp only [reduceCtorEq, if_false, Option.getD_some]
  simp only [hlook, Option.getD_some, hready, ToolEntry.isReady]
  simp only [reduceCtorEq, hexec, decide_True, Bool.not_true, Bool.false_eq_true, if_false]
  simp only [lookupA_mapUpdate, hlook, Option.map_some']
  refine ⟨_, rfl, ?_, ?_, ?_, ?_, ?_⟩ <;>
    simp [ToolEntry.recordError, ToolEntry.addToExecutionHistory]

/-- Witness for the amended C2: the READY tool `"b"` raises `Exception("boom")`. -/
theorem C2_execute_raise_amended_witness :
    ∃ e', lookupA (executeTool wStBoom "b" [] 5 2).state.toolMap "b" = some e' ∧
      e'.status = ToolStatusENUM.ready ∧
      e'.error_count = wEntryB.error_count + 1 ∧
      e'.execution_count = wEntryB.execution_count ∧
      (executeTool wStBoom "b" [] 5 2).state.total_executions = wStBoom.total_executions ∧
      (executeTool wStBoom "b" [] 5 2).result =
        [("success", Val.vBool false), ("error", Val.vStr "boom"), ("tool", Val.vStr "b")] :=
  C2_execute_raise_amended wStBoom "b" wEntryB [] [] "boom" 5 2 rfl rfl rfl

/-- C3: for every registry state, `add_tool` returns false and creates no
entry — leaving the tool map, `total_added`, and every existing entry
unchanged (the whole state is returned untouched) — whenever the map already
holds `max_tools` entries or the id is already present; in particular adding
the same id twice returns false the second time with the original entry
untouched. -/
theorem C3_add_tool_rejections (st : RegState) (tool_id : String)
    (inst : ToolInstance) (nm ds hn : String) (lc : Dict) (sp : String)
    (caps kws : List String) (md : Dict) (now : Nat)
    (h : st.toolMap.length ≥ st.max_tools ∨ (lookupA st.toolMap tool_id).isSome = true) :
    addTool st tool_id inst nm ds hn lc sp caps kws md now = (st, Except.ok false) := by
  rcases h with h | h
  · simp [addTool, h]
  · by_cases hcap : st.toolMap.length ≥ st.max_tools
    · simp [addTool, hcap]
    · simp [addTool, hcap, h]

/-- Witness for C3: adding `"t"` to `wSt1` a second time is rejected and the
state is returned unchanged. -/
theorem C3_add_tool_rejections_witness :
    (wSt1.toolMap.length ≥ wSt1.max_tools ∨ (lookupA wSt1.toolMap "t").isSome = true) ∧
    addTool wSt1 "t" wInstOk "dup" "" "" [] "" [] [] [] 1 = (wSt1, Except.ok false) :=
  ⟨Or.inr rfl,
   C3_add_tool_rejections wSt1 "t" wInstOk "dup" "" "" [] "" [] [] [] 1 (Or.inr rfl)⟩

/-- C4 counterexample: the claim asserts that after a success the injected
`"<id>_result"` key is visible to *every* subsequently executed tool, but the
tools share one mutable context dict.  In the batch `["A", "B", "C"]`, tool A
succeeds (its result is injected), tool B clears the shared context, and the
context handed to tool C no longer contains `"A_result"`. -/
theorem C4_visibility_counterexample :
    cexSeqRun.tools_executed = ["A", "B", "C"] ∧
    (cexSeqRun.resSeq[0]?).map pyGetSuccess = some true ∧
    (cexSeqRun.handedCtxs[2]?).map (fun c => lookupA c "A_result") = some none :=
  ⟨rfl, rfl, rfl⟩

/-- C4 (amended): in sequential mode, every listed id is executed in the given
order (`tools_executed = ids`) and a per-tool result is recorded for every id;
the aggregate success flag is the conjunction of the per-execution
`result.get("success")` truthiness (a failure makes it false, but the
remaining tools still run, with one result per id in `resSeq`); and after a
tool whose result is success-truthy, the shared context handed to the
*immediately following* execution contains `"<id>_result"` bound to that
tool's result — it stays visible to later tools only if no intervening tool's
own mutation of the shared context removes it. -/
theorem C4_sequential_chaining_amended (st : RegState) (ids : List String)
    (ctx : Dict) (sch : Nat → Nat × ℚ) :
    (execMultipleToolsSeq st ids ctx sch).tools_executed = ids ∧
    (∀ id ∈ ids,
      (lookupA (execMultipleToolsSeq st ids ctx sch).tool_results id).isSome = true) ∧
    (execMultipleToolsSeq st ids ctx sch).success =
      (execMultipleToolsSeq st ids ctx sch).resSeq.all pyGetSuccess ∧
    (∀ (j : Nat) (idj : String) (r c : Dict),
      ids[j]? = some idj →
      (execMultipleToolsSeq st ids ctx sch).resSeq[j]? = some r →
      pyGetSuccess r = true →
      (execMultipleToolsSeq st ids ctx sch).handedCtxs[j + 1]? = some c →
      lookupA c (idj ++ "_result") = some (Val.vDict r)) := by
  refine ⟨?_, ?_, ?_, ?_⟩
  · simpa using execSeqGo_executed ids st ctx sch 0 [] [] true
  · intro id hid
    exact execSeqGo_results_present ids st ctx sch 0 [] [] true id (Or.inl hid)
  · simpa using execSeqGo_success ids st ctx sch 0 [] [] true
  · intro j idj r c h1 h2 h3 h4
    exact execSeqGo_chain ids st ctx sch 0 [] [] true j idj r c h1 h2 h3 h4

/-- Witness for the amended C4 on the concrete batch `["A", "B", "C"]`:
A's successful result is visible in the context handed to the next execution,
and A has a recorded per-tool result. -/
theorem C4_sequential_chaining_amended_witness :
    ((["A", "B", "C"] : List String)[0]? = some "A" ∧
     cexSeqRun.resSeq[0]? = some [("success", Val.vBool true)] ∧
     pyGetSuccess [("success", Val.vBool true)] = true ∧
     cexSeqRun.handedCtxs[1]? =
       some [("A_result", Val.vDict [("success", Val.vBool true)])]) ∧
    lookupA [("A_result", Val.vDict [("success", Val.vBool true)])] ("A" ++ "_result") =
      some (Val.vDict [("success", Val.vBool true)]) ∧
    ("A" ∈ (["A", "B", "C"] : List String) ∧
     (lookupA cexSeqRun.tool_results "A").isSome = true) := by
  refine ⟨⟨rfl, rfl, rfl, rfl⟩, ?_, by simp, ?_⟩
  · exact (C4_sequential_chaining_amended cexStABC ["A", "B", "C"] []
      (fun _ => (0, 0))).2.2.2 0 "A" [("success", Val.vBool true)]
      [("A_result", Val.vDict [("success", Val.vBool true)])] rfl rfl rfl rfl
  · exact (C4_sequential_chaining_amended cexStABC ["A", "B", "C"] []
      (fun _ => (0, 0))).2.1 "A" (by simp)

/-- C5 counterexample: the claim asserts the parallel aggregate success flag is
false if any tool failed, but the collection loop only clears the flag for
exception objects surfaced by `asyncio.gather`, and `execute_tool` converts
every tool fault into an ordinary failure dict.  Here the parallel batch
`["F"]` runs a tool that raises: its own result has `success == False` and an
error, yet the batch flag stays `True`. -/
theorem C5_parallel_flag_counterexample :
    cexParRun.success = true ∧
    (lookupA cexParRun.tool_results "F").map (fun r => lookupA r "success") =
      some (some (Val.vBool false)) ∧
    (lookupA cexParRun.tool_results "F").map (fun r => lookupA r "error") =
      some (some (Val.vStr "boom")) :=
  ⟨rfl, rfl, rfl⟩

/-- C5 (amended): in parallel mode every tool's execute operation receives its
own copy of the caller's context (`handedCtxs` is `ids.length` copies of the
initial context, so no mutation made during one tool's execution is visible to
another's context); every listed id is executed with a per-tool result
recorded even when some executions raise (exceptions are converted to failure
results inside `execute_tool` without aborting siblings); but the aggregate
success flag is always `True` — tool failures do not clear it, because only
exceptions surfaced by the concurrency layer would, and `execute_tool` never
lets one escape. -/
theorem C5_parallel_isolation_amended (st : RegState) (ids : List String)
    (ctx : Dict) (sch : Nat → Nat × ℚ) :
    (execMultipleToolsPar st ids ctx sch).tools_executed = ids ∧
    (execMultipleToolsPar st ids ctx sch).handedCtxs =
      List.replicate ids.length ctx ∧
    (∀ id ∈ ids,
      (lookupA (execMultipleToolsPar st ids ctx sch).tool_results id).isSome = true) ∧
    (execMultipleToolsPar st ids ctx sch).resSeq.length = ids.length ∧
    (execMultipleToolsPar st ids ctx sch).success = true := by
  refine ⟨?_, ?_, ?_, ?_, ?_⟩
  · simpa using execParGo_executed ids st ctx sch 0 [] [] true
  · exact execParGo_handed ids st ctx sch 0 [] [] true
  · intro id hid
    exact execParGo_results_present ids st ctx sch 0 [] [] true id (Or.inl hid)
  · exact execParGo_resSeq_len ids st ctx sch 0 [] [] true
  · exact execParGo_success ids st ctx sch 0 [] [] true

/-- Witness for the amended C5 on the concrete parallel batch `["F"]`. -/
theorem C5_parallel_isolation_amended_witness :
    ("F" ∈ (["F"] : List String)) ∧
    (lookupA cexParRun.tool_results "F").isSome = true ∧
    cexParRun.handedCtxs = List.replicate 1 [] := by
  refine ⟨by simp, ?_, ?_⟩
  · exact (C5_parallel_isolation_amended cexStF ["F"] [] (fun _ => (0, 0))).2.2.1 "F" (by simp)
  · exact (C5_parallel_isolation_amended cexStF ["F"] [] (fun _ => (0, 0))).2.1

/-- C6 counterexample: the claim asserts that a timed-out
`wait_for_tool_initialization` does not cancel the background initialization
work and that a timed-out `wait_for_all_initializations` leaves all pending
handles intact for a retry.  But both helpers await through
`asyncio.wait_for`, which on timeout cancels the awaited task (for the joint
wait: cancels the `gather`, which cancels every pending child) and waits for
the cancellation before raising `TimeoutError`; each cancelled task's
`finally` block deletes its own handle.  On the concrete registry `wStPend`
(one pending handle for `"p"`), after a timed-out single wait the task has
been cancelled and its handle is gone, and after a timed-out joint wait no
pending handle remains — so neither the work nor the handles survive and a
retried wait cannot succeed. -/
theorem C6_timeout_cancels_counterexample :
    (lookupA wStPend.initTasks "p").isSome = true ∧
    (waitForToolInitialization wStPend "p" .timedOut).2 = false ∧
    (waitForToolInitialization wStPend "p" .timedOut).1.cancelledInits = ["p"] ∧
    lookupA (waitForToolInitialization wStPend "p" .timedOut).1.initTasks "p" = none ∧
    (waitForAllInitializations wStPend .timedOut).2 = false ∧
    (waitForAllInitializations wStPend .timedOut).1.initTasks = [] ∧
    (waitForAllInitializations wStPend .timedOut).1.cancelledInits = ["p"] :=
  ⟨rfl, rfl, rfl, rfl, rfl, rfl, rfl⟩

/-- C6 (amended): with a pending initialization handle for the id,
`wait_for_tool_initialization` on timeout returns false, but
`asyncio.wait_for` has cancelled the awaited background initialization task —
the cancellation is recorded and the cancelled task's `finally` block has
removed its handle from the table; `wait_for_all_initializations` on timeout
returns false after the cancelled `gather` has cancelled every pending task
(each recorded, each handle dropped), so no pending handle is left to retry;
on a non-timeout failure raised by the awaited work it returns false with the
registry state unchanged by the wait itself; and on joint success it clears
the handle set and returns true. -/
theorem C6_wait_timeout_amended (st : RegState) (tool_id : String)
    (hpend : (lookupA st.initTasks tool_id).isSome = true) :
    ((waitForToolInitialization st tool_id .timedOut).2 = false ∧
     tool_id ∈ (waitForToolInitialization st tool_id .timedOut).1.cancelledInits ∧
     lookupA (waitForToolInitialization st tool_id .timedOut).1.initTasks tool_id = none) ∧
    ((waitForAllInitializations st .timedOut).2 = false ∧
     (waitForAllInitializations st .timedOut).1.initTasks = [] ∧
     (∀ id ∈ st.initTasks.map Prod.fst,
       id ∈ (waitForAllInitializations st .timedOut).1.cancelledInits)) ∧
    waitForAllInitializations st .failed = (st, false) ∧
    waitForAllInitializations st .completed = ({ st with initTasks := [] }, true) := by
  have hne : st.initTasks.isEmpty = false := by
    cases ht : st.initTasks with
    | nil => rw [ht] at hpend; simp [lookupA] at hpend
    | cons a l => simp
  obtain ⟨v, hv⟩ := Option.isSome_iff_exists.mp hpend
  refine ⟨⟨?_, ?_, ?_⟩, ⟨?_, ?_, ?_⟩, ?_, ?_⟩
  · simp [waitForToolInitialization, hv]
  · simp [waitForToolInitialization, hv]
  · simp only [waitForToolInitialization, hv]
    exact lookupA_filter_ne_self st.initTasks tool_id
  · simp [waitForAllInitializations, hne]
  · simp [waitForAllInitializations, hne]
  · intro id hid
    simp only [waitForAllInitializations, hne, Bool.false_eq_true, if_false]
    simp only [List.mem_append]
    right
    exact hid
  · simp [waitForAllInitializations, hne]
  · simp [waitForAllInitializations, hne]

/-- Witness for the amended C6: in `wStPend` the tool `"p"` has a pending
initialization handle. -/
theorem C6_wait_timeout_amended_witness :
    (lookupA wStPend.initTasks "p").isSome = true ∧
    ((waitForToolInitialization wStPend "p" .timedOut).2 = false ∧
     "p" ∈ (waitForToolInitialization wStPend "p" .timedOut).1.cancelledInits ∧
     lookupA (waitForToolInitialization wStPend "p" .timedOut).1.initTasks "p" = none) ∧
    (waitForAllInitializations wStPend .timedOut).1.initTasks = [] ∧
    waitForAllInitializations wStPend .failed = (wStPend, false) ∧
    waitForAllInitializations wStPend .completed = ({ wStPend with initTasks := [] }, true) :=
  ⟨rfl,
   (C6_wait_timeout_amended wStPend "p" rfl).1,
   (C6_wait_timeout_amended wStPend "p" rfl).2.1.2.1,
   (C6_wait_timeout_amended wStPend "p" rfl).2.2.1,
   (C6_wait_timeout_amended wStPend "p" rfl).2.2.2⟩

/-- C7 counterexample: the claim asserts the history never exceeds
`max_history_size`, but for `max_history_size = 0` the trimming slice
`history[-0:]` is the whole list (Python `-0 == 0`), so nothing is ever
trimmed: after one add the history holds 1 > 0 records. -/
theorem C7_zero_cap_counterexample :
    cexEntry0.max_history_size = 0 ∧
    ((cexEntry0.addToExecutionHistory 0 [("success", Val.vBool true)]).execution_history).length = 1 :=
  ⟨rfl, rfl⟩

/-- C7 (amended): for every tool entry with `max_history_size ≥ 1` and every
nonempty sequence of `add_to_execution_history` calls, the resulting history
is exactly the most recent `max_history_size` records of
(previous history ++ the stamped added records), in insertion order with the
oldest discarded first, and in particular never holds more than
`max_history_size` records — exactly that many once the total record count
exceeds the cap.  (When `max_history_size = 0` the trimming slice
`history[-0:]` is the whole list and the cap is not enforced.) -/
theorem C7_history_bound_amended (e : ToolEntry) (l : List (Nat × Dict))
    (hmax : 1 ≤ e.max_history_size) (hne : l ≠ []) :
    (histFold e l).execution_history =
      (e.execution_history ++ l.map (fun p => stampRec p.1 p.2)).drop
        (e.execution_history.length + l.length - e.max_history_size) ∧
    (histFold e l).execution_history.length ≤ e.max_history_size ∧
    (e.execution_history.length + l.length > e.max_history_size →
      (histFold e l).execution_history.length = e.max_history_size) := by
  have h := histFold_history_eq l e hmax hne
  refine ⟨h, ?_, ?_⟩
  · rw [h, List.length_drop]
    simp only [List.length_append, List.length_map]
    omega
  · intro hgt
    rw [h, List.length_drop]
    simp only [List.length_append, List.length_map]
    omega

/-- Witness for the amended C7: one record added to an entry with the default
cap of 50. -/
theorem C7_history_bound_amended_witness :
    (1 ≤ wEntry7.max_history_size ∧ ([((3 : Nat), ([] : Dict))] : List (Nat × Dict)) ≠ []) ∧
    (histFold wEntry7 [(3, [])]).execution_history.length ≤ wEntry7.max_history_size :=
  ⟨⟨by decide, by simp⟩,
   (C7_history_bound_amended wEntry7 [(3, [])] (by decide) (by simp)).2.1⟩

/-- C8: `matches_query` is a pure, case-insensitive scoring function: a query
containing one of the entry's keywords as a substring scores at least 0.4; a
query containing none of the keywords, capabilities, name, or
whitespace-split description words as substrings scores exactly 0; and every
score lies in [0, 1]. -/
theorem C8_matches_query_score (e : ToolEntry) (q : String) :
    ((∃ k, k ∈ e.keywords ∧ strIn (pyLower k) (pyLower q) = true) →
      2/5 ≤ e.matchesQuery q) ∧
    ((∀ k ∈ e.keywords, strIn (pyLower k) (pyLower q) = false) →
      (∀ cp ∈ e.capabilities, strIn (pyLower cp) (pyLower q) = false) →
      strIn (pyLower e.name) (pyLower q) = false →
      (∀ w ∈ pySplitWS (pyLower e.description), strIn w (pyLower q) = false) →
      e.matchesQuery q = 0) ∧
    0 ≤ e.matchesQuery q ∧ e.matchesQuery q ≤ 1 := by
  refine ⟨?_, ?_, mq_nonneg e q, mq_le_one e q⟩
  · rintro ⟨k, hk, hs⟩
    exact mq_ge_of_keyword e q k hk hs
  · intro h1 h2 h3 h4
    exact mq_eq_zero e q h1 h2 h3 h4

/-- Witness for C8: `wEntryM` (keywords `["cost", "estimate"]`) scores at
least 0.4 on `"estimate my cost"`, scores 0 on `"zzz"`, and both scores lie
in [0, 1]. -/
theorem C8_matches_query_score_witness :
    ("cost" ∈ wEntryM.keywords ∧ strIn (pyLower "cost") (pyLower "estimate my cost") = true) ∧
    2/5 ≤ wEntryM.matchesQuery "estimate my cost" ∧
    wEntryM.matchesQuery "zzz" = 0 ∧
    0 ≤ wEntryM.matchesQuery "estimate my cost" ∧
    wEntryM.matchesQuery "estimate my cost" ≤ 1 :=
  ⟨⟨by decide, by decide⟩,
   (C8_matches_query_score wEntryM "estimate my cost").1 ⟨"cost", by decide, by decide⟩,
   (C8_matches_query_score wEntryM "zzz").2.1 (by decide) (by decide) (by decide) (by decide),
   (C8_matches_query_score wEntryM "estimate my cost").2.2.1,
   (C8_matches_query_score wEntryM "estimate my cost").2.2.2⟩

/-- C9: starting from a fresh registry, after every sequence of `add_tool`,
`remove_tool`, and `cleanup` calls, `count() == total_added - total_removed`
(adds increment `total_added` exactly when they insert, removals increment
`total_removed` exactly when they delete, and rejected calls change neither). -/
theorem C9_count_invariant (session_id : String) (mx : Nat) (ops : List RegOp) :
    countTools (ops.foldl applyOp (freshRegistry session_id mx)) =
      (ops.foldl applyOp (freshRegistry session_id mx)).total_added -
        (ops.foldl applyOp (freshRegistry session_id mx)).total_removed := by
  obtain ⟨h1, _⟩ := foldOps_inv ops (freshRegistry session_id mx) ⟨rfl, List.nodup_nil⟩
  omega

/-- C10: an entry whose `name` is the empty string matches every query with a
score of at least 0.2 (the empty string is a substring of every query), an
empty-string keyword likewise contributes 0.4 so the score is at least 0.4 for
every query; and `add_tool` avoids the empty-name case by defaulting `name` to
the tool id (`name or tool_id`). -/
theorem C10_empty_name_matching (e : ToolEntry) (q : String) (st : RegState)
    (tool_id : String) (inst : ToolInstance) (ds hn : String) (lc : Dict)
    (sp : String) (caps kws : List String) (md : Dict) (now : Nat) :
    (e.name = "" → 1/5 ≤ e.matchesQuery q) ∧
    ("" ∈ e.keywords → 2/5 ≤ e.matchesQuery q) ∧
    ((addTool st tool_id inst "" ds hn lc sp caps kws md now).2 = Except.ok true →
      (lookupA (addTool st tool_id inst "" ds hn lc sp caps kws md now).1.toolMap
        tool_id).map ToolEntry.name = some tool_id) := by
  refine ⟨fun hn' => mq_ge_of_empty_name e q hn', fun hkw => ?_,
    fun hok => addTool_name_default st tool_id inst ds hn lc sp caps kws md now hok⟩
  refine mq_ge_of_keyword e q "" hkw ?_
  have hl : pyLower "" = "" := rfl
  rw [hl]
  exact strIn_empty _

/-- Witness for C10: the empty-named entry scores at least 0.2 on an arbitrary
query, the empty-keyword entry at least 0.4, and adding `"t"` with an empty
name argument stores `name = "t"`. -/
theorem C10_empty_name_matching_witness :
    (wEntryEmptyName.name = "" ∧ 1/5 ≤ wEntryEmptyName.matchesQuery "anything") ∧
    ("" ∈ wEntryEmptyKw.keywords ∧ 2/5 ≤ wEntryEmptyKw.matchesQuery "whatever") ∧
    ((addTool (freshRegistry "s" 20) "t" wInstOk "" "" "" [] "" [] [] [] 0).2 = Except.ok true ∧
     (lookupA (addTool (freshRegistry "s" 20) "t" wInstOk "" "" "" [] "" [] [] [] 0).1.toolMap
       "t").map ToolEntry.name = some "t") :=
  ⟨⟨rfl, (C10_empty_name_matching wEntryEmptyName "anything" (freshRegistry "s" 20) "t"
      wInstOk "" "" [] "" [] [] [] 0).1 rfl⟩,
   ⟨by decide, (C10_empty_name_matching wEntryEmptyKw "whatever" (freshRegistry "s" 20) "t"
      wInstOk "" "" [] "" [] [] [] 0).2.1 (by decide)⟩,
   ⟨rfl, (C10_empty_name_matching wEntryEmptyKw "whatever" (freshRegistry "s" 20) "t"
      wInstOk "" "" [] "" [] [] [] 0).2.2 rfl⟩⟩
